import Mathlib

/-!
Verification of the EmailsToPrinter repository (src/email2printer.py)
against its natural-language specification.

The Python script is shallowly embedded below.  Timezone-aware datetimes
in the fixed civil timezone (Europe/Madrid) are represented by a civil
day index together with the local wall-clock time of day in minutes;
day 0 is 2001-01-01, which was a Monday, so Python's
`datetime.weekday()` is the day index modulo 7.  UTC-offset data for the
timezone (which the script obtains from `zoneinfo`) is embedded for the
year 2025 where a concrete evaluation needs it.  Machine reals produced
by `reportlab.stringWidth` and the width arithmetic of the script are
modelled over `ℚ`; bytes of attachment payloads are modelled as `List ℕ`.
-/

set_option autoImplicit false

namespace EmailsToPrinter

/-- A timezone-aware local datetime in the fixed civil timezone
(Europe/Madrid): `day` is the civil day index (days since 2001-01-01, a
Monday) and `tod` the local wall-clock time of day in minutes.
`datetime.date()` truncation keeps `day`; `datetime.combine(d, time(h, m))`
builds `⟨d, h * 60 + m⟩`. -/
structure LocalDT where
  day : ℤ
  tod : ℤ
  deriving DecidableEq

/-- Python `datetime.weekday()`: 0 = Monday, ..., 5 = Saturday,
6 = Sunday.  With day 0 a Monday this is the day index modulo 7. -/
def weekday (d : ℤ) : ℤ := d % 7

/-- Embeds `get_time_window` (src/email2printer.py, lines 32-53).
On `now.weekday() > 4` the script prints and calls `exit(0)`
("not applicable"), modelled as `none`.  On Monday the start date is
`(now - timedelta(days=3)).date()` at 08:00 local, on Tuesday-Friday
`(now - timedelta(days=1)).date()` at 08:00 local (Python timedelta
arithmetic on aware datetimes is wall-clock, so subtracting 3 days and
truncating yields `now.day - 3`); the end is today at 09:00 local. -/
def get_time_window (now : LocalDT) : Option (LocalDT × LocalDT) :=
  if weekday now.day > 4 then
    none
  else if weekday now.day = 0 then
    some (⟨now.day - 3, 8 * 60⟩, ⟨now.day, 9 * 60⟩)
  else
    some (⟨now.day - 1, 8 * 60⟩, ⟨now.day, 9 * 60⟩)

/-- C1: if the weekday is Saturday or Sunday the window calculator
returns "not applicable" and never a window; on Monday it returns the
window from 08:00 local three calendar days before today (the preceding
Friday) to 09:00 local today; on Tuesday-Friday it returns the window
from 08:00 local on the previous calendar day to 09:00 local today. -/
theorem C1_window_by_weekday (now : LocalDT) :
    (weekday now.day = 5 ∨ weekday now.day = 6 → get_time_window now = none)
    ∧ (weekday now.day = 0 →
        get_time_window now = some (⟨now.day - 3, 8 * 60⟩, ⟨now.day, 9 * 60⟩)
          ∧ weekday (now.day - 3) = 4)
    ∧ (1 ≤ weekday now.day ∧ weekday now.day ≤ 4 →
        get_time_window now = some (⟨now.day - 1, 8 * 60⟩, ⟨now.day, 9 * 60⟩)) := by
  unfold get_time_window weekday
  refine ⟨fun h => ?_, fun h => ⟨?_, ?_⟩, fun h => ?_⟩
  · rw [if_pos (by omega)]
  · rw [if_neg (by omega), if_pos (by omega)]
  · omega
  · rw [if_neg (by omega), if_neg (by omega)]

/-- Witness for C1 at the concrete Monday 2025-03-31 10:00 local
(day 8855 since 2001-01-01). -/
theorem C1_window_by_weekday_witness :
    weekday (8855 : ℤ) = 0
    ∧ get_time_window ⟨8855, 600⟩ = some (⟨8855 - 3, 8 * 60⟩, ⟨8855, 9 * 60⟩)
    ∧ weekday (8855 - 3 : ℤ) = 4 := by
  have h := (C1_window_by_weekday ⟨8855, 600⟩).2.1 (by decide)
  exact ⟨by decide, h.1, h.2⟩

/-- Python `b - a` on aware datetimes that share the same `tzinfo`
object — the script's case, since `start_time` and `end_time` both
carry the very same `madrid_tz` `ZoneInfo` instance: CPython then
computes the naive wall-clock difference (in minutes here), with no
UTC-offset adjustment. -/
def sameTzDeltaMin (a b : LocalDT) : ℤ :=
  (b.day * 1440 + b.tod) - (a.day * 1440 + a.tod)

/-- The UTC offset (minutes) of the fixed civil timezone Europe/Madrid
during 2025, as `zoneinfo` resolves it for local wall-clock datetimes
with `fold = 0`: CET (+60) outside daylight-saving time, CEST (+120)
from Sunday 2025-03-30 03:00 local (day 8854 since 2001-01-01; the hour
02:00-03:00 does not occur locally) until Sunday 2025-10-26 03:00 local
(day 9064; the repeated hour 02:00-03:00 resolves to CEST).  Used only
to exhibit a window whose endpoints straddle an offset change. -/
def madridOffset2025 (t : LocalDT) : ℤ :=
  if (8854 < t.day ∨ (t.day = 8854 ∧ 180 ≤ t.tod))
      ∧ (t.day < 9064 ∨ (t.day = 9064 ∧ t.tod < 180)) then 120 else 60

/-- C8: for every Monday run the window spans Friday 08:00 to Monday
09:00 local, and the script's `end_time - start_time` — a subtraction
of aware datetimes sharing one `tzinfo` object, which Python evaluates
as the wall-clock difference — is exactly 73 hours, independent of any
daylight-saving transition inside the span. -/
theorem C8_monday_span (now : LocalDT) (s e : LocalDT)
    (hmon : weekday now.day = 0) (hw : get_time_window now = some (s, e)) :
    sameTzDeltaMin s e = 73 * 60 := by
  unfold get_time_window at hw
  rw [if_neg (by omega), if_pos hmon] at hw
  obtain ⟨hs, he⟩ : s = ⟨now.day - 3, 8 * 60⟩ ∧ e = ⟨now.day, 9 * 60⟩ := by
    constructor <;> [exact congrArg Prod.fst (Option.some.inj hw).symm;
      exact congrArg Prod.snd (Option.some.inj hw).symm]
  subst hs he
  unfold sameTzDeltaMin
  ring

/-- Witness for C8 at the Monday 2025-03-31 (day 8855): the window runs
Friday 2025-03-28 08:00 CET to Monday 2025-03-31 09:00 CEST, so the
2025-03-30 spring-forward transition lies inside the span (the UTC
offsets at the endpoints differ), and the difference is still exactly
73 hours. -/
theorem C8_monday_span_witness :
    madridOffset2025 ⟨8852, 8 * 60⟩ ≠ madridOffset2025 ⟨8855, 9 * 60⟩
    ∧ sameTzDeltaMin ⟨8852, 8 * 60⟩ ⟨8855, 9 * 60⟩ = 73 * 60 :=
  ⟨by decide,
   C8_monday_span ⟨8855, 600⟩ ⟨8852, 8 * 60⟩ ⟨8855, 9 * 60⟩ (by decide) (by decide)⟩

/-- The required body phrase (src/email2printer.py, line 22). -/
def SEARCH_PHRASE : String := "Daily Leads Report"

/-- The recognized attachment extension (src/email2printer.py, line 23). -/
def ATTACHMENT_EXT : String := ".xlsx"

/-- Boolean test that `p` is an initial segment of `s`. -/
def startsWithB : List Char → List Char → Bool
  | [], _ => true
  | _ :: _, [] => false
  | a :: p, b :: s => a == b && startsWithB p s

/-- Boolean test that `t` is a final segment of `s`; models Python
`str.endswith`. -/
def endsWithB (t s : List Char) : Bool := startsWithB t.reverse s.reverse

/-- Boolean test that `p` occurs contiguously somewhere in `s`; models
the Python substring operator `p in s`. -/
def substrB : List Char → List Char → Bool
  | p, [] => startsWithB p []
  | p, b :: s => startsWithB p (b :: s) || substrB p s

/-- One MIME part of a message, as the filter inspects it:
`get_content_disposition()`, `get_filename()` and the decoded payload
bytes of `get_payload(decode=True)`. -/
structure EmailPart where
  disposition : Option String
  filename : Option String
  payload : List ℕ
  deriving DecidableEq

/-- One fetched candidate message, as `get_attachments` inspects it:
whether the RFC822 fetch returned OK, the parsed Date header as a UTC
instant in minutes (`none` when the header is absent or
`parsedate_to_datetime` raises), the plain-text body produced by
`get_email_body`, and the MIME parts visited by `msg.walk()`. -/
structure EmailMsg where
  fetchOk : Bool
  dateHdr : Option ℤ
  body : String
  parts : List EmailPart
  deriving DecidableEq

/-- The attachment scan of `get_attachments` (src/email2printer.py,
lines 117-121): collect the decoded payload of every part whose content
disposition is "attachment" and whose filename is present, truthy
(non-empty) and ends with ".xlsx" case-insensitively. -/
def extractXlsx (parts : List EmailPart) : List (List ℕ) :=
  parts.filterMap fun p =>
    if p.disposition = some "attachment" then
      match p.filename with
      | some f =>
          if f ≠ "" ∧ endsWithB ATTACHMENT_EXT.toList (f.toList.map Char.toLower) then
            some p.payload
          else none
      | none => none
    else none

/-- The body of the per-message loop of `get_attachments`
(src/email2printer.py, lines 95-121): skip on failed fetch, skip on an
absent or unparseable Date header, skip unless the timestamp instant
lies in `[start, end)` (aware-datetime comparison of the Madrid-converted
date — `astimezone` preserves the instant `t`), skip unless the body
contains the search phrase, and otherwise collect the Excel
attachments. -/
def processMsg (start_utc end_utc : ℤ) (m : EmailMsg) : List (List ℕ) :=
  if m.fetchOk = false then []
  else
    match m.dateHdr with
    | none => []
    | some t =>
        if start_utc ≤ t ∧ t < end_utc then
          if substrB SEARCH_PHRASE.toList m.body.toList then extractXlsx m.parts
          else []
        else []

/-- Embeds `get_attachments` (src/email2printer.py, lines 87-122): the
loop accumulates, in encounter order, the attachments contributed by
each candidate message. -/
def get_attachments (start_utc end_utc : ℤ) : List EmailMsg → List (List ℕ)
  | [] => []
  | m :: ms => processMsg start_utc end_utc m ++ get_attachments start_utc end_utc ms

theorem startsWithB_iff (p : List Char) : ∀ s : List Char,
    startsWithB p s = true ↔ ∃ r, s = p ++ r := by
  induction p with
  | nil => intro s; simp [startsWithB]
  | cons a as ih =>
    intro s
    cases s with
    | nil => simp [startsWithB]
    | cons b bs =>
      constructor
      · intro h
        simp only [startsWithB, Bool.and_eq_true, beq_iff_eq] at h
        obtain ⟨rfl, h2⟩ := h
        obtain ⟨r, rfl⟩ := (ih bs).mp h2
        exact ⟨r, rfl⟩
      · rintro ⟨r, hr⟩
        rw [List.cons_append] at hr
        injection hr with h1 h2
        simp only [startsWithB, Bool.and_eq_true, beq_iff_eq]
        exact ⟨h1.symm, (ih bs).mpr ⟨r, h2⟩⟩

theorem substrB_iff (p : List Char) : ∀ s : List Char,
    substrB p s = true ↔ ∃ u v, s = u ++ p ++ v := by
  intro s
  induction s with
  | nil =>
    simp only [substrB, startsWithB_iff]
    constructor
    · rintro ⟨r, hr⟩
      exact ⟨[], r, by simpa using hr⟩
    · rintro ⟨u, v, huv⟩
      rw [List.append_assoc] at huv
      obtain ⟨hu, hpv⟩ := List.append_eq_nil.mp huv.symm
      obtain ⟨hp, hv⟩ := List.append_eq_nil.mp hpv
      exact ⟨[], by simp [hp]⟩
  | cons b bs ih =>
    simp only [substrB, Bool.or_eq_true, startsWithB_iff, ih]
    constructor
    · rintro (⟨r, hr⟩ | ⟨u, v, huv⟩)
      · exact ⟨[], r, by simpa using hr⟩
      · exact ⟨b :: u, v, by simp [huv]⟩
    · rintro ⟨u, v, huv⟩
      cases u with
      | nil => exact Or.inl ⟨v, by simpa using huv⟩
      | cons c u =>
        right
        rw [List.cons_append, List.cons_append] at huv
        injection huv with h1 h2
        exact ⟨u, v, h2⟩

/-- Reduction of the per-message loop body once the fetch succeeded and
the Date header parsed to the instant `t`. -/
theorem processMsg_spec (s e : ℤ) (m : EmailMsg) (t : ℤ)
    (hf : m.fetchOk = true) (hd : m.dateHdr = some t) :
    processMsg s e m =
      if s ≤ t ∧ t < e then
        (if substrB SEARCH_PHRASE.toList m.body.toList then extractXlsx m.parts
         else [])
      else [] := by
  simp [processMsg, hf, hd]

/-- A MIME part carrying a qualifying Excel attachment. -/
def attPart : EmailPart := ⟨some "attachment", some "report.xlsx", [1, 2, 3]⟩

/-- A qualifying message whose timestamp instant is exactly 0. -/
def msgA : EmailMsg := ⟨true, some 0, "x Daily Leads Report y", [attPart]⟩

/-- A message whose timestamp instant is exactly 10. -/
def msgEnd : EmailMsg := ⟨true, some 10, "x Daily Leads Report y", [attPart]⟩

/-- A message whose Date header is absent or unparseable. -/
def msgBadDate : EmailMsg := ⟨true, none, "x Daily Leads Report y", [attPart]⟩

/-- A message whose body contains only a lowercase near-miss of the
required phrase, with a qualifying attachment present. -/
def msgNearMiss : EmailMsg :=
  ⟨true, some 5, "please print the daily leads report", [attPart]⟩

/-- A message whose body contains the required phrase embedded inside
other text, not as a standalone word. -/
def msgEmbedded : EmailMsg := ⟨true, some 5, "xxDaily Leads Reportyy", [attPart]⟩

/-- C2: for a candidate that passes the fetch and date-parsing checks,
the precise timestamp instant is tested against the half-open interval
`[start, end)`: inclusion (attachment extraction, subject to the body
check) happens exactly when `start ≤ t ∧ t < end`; a timestamp exactly
equal to `start` is included and one exactly equal to `end` is
excluded. -/
theorem C2_halfopen_window :
    (∀ (s e : ℤ) (m : EmailMsg) (t : ℤ), m.fetchOk = true → m.dateHdr = some t →
        processMsg s e m =
          if s ≤ t ∧ t < e then
            (if substrB SEARCH_PHRASE.toList m.body.toList then extractXlsx m.parts
             else [])
          else [])
    ∧ (∀ (s e : ℤ) (m : EmailMsg), m.fetchOk = true → m.dateHdr = some s → s < e →
        substrB SEARCH_PHRASE.toList m.body.toList = true →
        processMsg s e m = extractXlsx m.parts)
    ∧ (∀ (s e : ℤ) (m : EmailMsg), m.fetchOk = true → m.dateHdr = some e →
        processMsg s e m = []) := by
  refine ⟨processMsg_spec, fun s e m hf hd hse hsub => ?_, fun s e m hf hd => ?_⟩
  · rw [processMsg_spec s e m s hf hd, if_pos ⟨le_refl s, hse⟩, if_pos hsub]
  · rw [processMsg_spec s e m e hf hd, if_neg (by omega)]

/-- Witness for C2: with window `[0, 10)`, the message with timestamp
instant exactly 0 contributes its attachments, and the message with
timestamp instant exactly 10 contributes nothing. -/
theorem C2_halfopen_window_witness :
    processMsg 0 10 msgA = extractXlsx msgA.parts ∧ processMsg 0 10 msgEnd = [] :=
  ⟨C2_halfopen_window.2.1 0 10 msgA rfl rfl (by decide) (by decide),
   C2_halfopen_window.2.2 0 10 msgEnd rfl rfl⟩

/-- C7: for a candidate inside the window that passed the fetch and
date checks, inclusion is decided exactly by whether the body contains
the required phrase; that containment test is exact, case-sensitive,
contiguous-substring containment anywhere in the body; a lowercase
near-miss body is excluded even though a qualifying attachment is
present, and a body with the phrase embedded inside other text is
matched. -/
theorem C7_phrase_substring :
    (∀ (s e : ℤ) (m : EmailMsg) (t : ℤ), m.fetchOk = true → m.dateHdr = some t →
        s ≤ t → t < e →
        processMsg s e m =
          if substrB SEARCH_PHRASE.toList m.body.toList then extractXlsx m.parts
          else [])
    ∧ (∀ body : List Char,
        substrB SEARCH_PHRASE.toList body = true ↔
          ∃ u v, body = u ++ SEARCH_PHRASE.toList ++ v)
    ∧ processMsg 0 10 msgNearMiss = []
    ∧ processMsg 0 10 msgEmbedded = [[1, 2, 3]] := by
  refine ⟨fun s e m t hf hd hst hte => ?_, substrB_iff SEARCH_PHRASE.toList, ?_, ?_⟩
  · rw [processMsg_spec s e m t hf hd, if_pos ⟨hst, hte⟩]
  · decide
  · decide

/-- Witness for C7 at the concrete embedded-phrase message with window
`[0, 10)` and timestamp instant 5. -/
theorem C7_phrase_substring_witness :
    processMsg 0 10 msgEmbedded =
      (if substrB SEARCH_PHRASE.toList msgEmbedded.body.toList then
        extractXlsx msgEmbedded.parts
       else [])
    ∧ (substrB SEARCH_PHRASE.toList msgEmbedded.body.toList = true ↔
        ∃ u v, msgEmbedded.body.toList = u ++ SEARCH_PHRASE.toList ++ v) :=
  ⟨C7_phrase_substring.1 0 10 msgEmbedded 5 rfl rfl (by decide) (by decide),
   C7_phrase_substring.2.1 msgEmbedded.body.toList⟩

/-- A message with an absent or unparseable Date header contributes
nothing. -/
theorem processMsg_bad_date (s e : ℤ) (m : EmailMsg) (h : m.dateHdr = none) :
    processMsg s e m = [] := by
  simp [processMsg, h]

/-- C9: a candidate whose Date header is absent or unparseable is
excluded, the loop continues with the remaining candidates, and the
resulting attachment sequence equals the one computed over the
remaining candidates alone, wherever the bad candidate sits in the
list. -/
theorem C9_bad_date_skipped (s e : ℤ) (pre post : List EmailMsg) (m : EmailMsg)
    (h : m.dateHdr = none) :
    get_attachments s e (pre ++ m :: post) = get_attachments s e (pre ++ post) := by
  induction pre with
  | nil => simp [get_attachments, processMsg_bad_date s e m h]
  | cons x xs ih => simp [get_attachments, ih]

/-- Witness for C9: dropping the concrete bad-date message between two
good candidates leaves the attachment sequence unchanged. -/
theorem C9_bad_date_skipped_witness :
    get_attachments 0 10 ([msgA] ++ msgBadDate :: [msgEmbedded]) =
      get_attachments 0 10 ([msgA] ++ [msgEmbedded]) :=
  C9_bad_date_skipped 0 10 [msgA] [msgEmbedded] msgBadDate rfl

/-- `available_width` (src/email2printer.py, line 156): landscape letter
page width 792 minus the 30 + 30 left/right margins. -/
def available_width : ℚ := 792 - 60

/-- `num_cols` (src/email2printer.py, lines 152-155): the length of the
first row when the grid is non-empty, otherwise 0. -/
def num_cols (raw_data : List (List String)) : ℕ :=
  match raw_data with
  | [] => 0
  | r :: _ => r.length

/-- `max_col_width` (src/email2printer.py, line 157): the per-column
share of the usable width, guarded by `num_cols > 0` with fallback
100. -/
def max_col_width (raw_data : List (List String)) : ℚ :=
  if 0 < num_cols raw_data then available_width / num_cols raw_data else 100

/-- One step of Python `zip(*raw_data)`: the heads of all rows and the
remaining tails, or `none` as soon as some row is exhausted. -/
def peelCols (rows : List (List String)) : Option (List String × List (List String)) :=
  rows.foldr
    (fun r acc =>
      match r, acc with
      | x :: xs, some (hs, ts) => some (x :: hs, xs :: ts)
      | _, _ => none)
    (some ([], []))

/-- Fuelled iteration of `peelCols`; the fuel is the first row's length,
after which Python `zip` stops because its first iterator is
exhausted. -/
def zipColsAux : ℕ → List (List String) → List (List String)
  | 0, _ => []
  | n + 1, rows =>
    match peelCols rows with
    | none => []
    | some (hs, ts) => hs :: zipColsAux n ts

/-- Python `zip(*raw_data)` (src/email2printer.py, line 160): the
columns of the grid, truncated to the shortest row; `zip()` of an empty
grid is empty. -/
def zipCols (rows : List (List String)) : List (List String) :=
  match rows with
  | [] => []
  | r :: _ => zipColsAux r.length rows

/-- `calculated_width` for one column (src/email2printer.py, line 161):
the maximum string width over the column's cells and 0 (the appended
`[0]`), plus the fixed padding 10.  `sw` stands for the external
`reportlab` metric `stringWidth(item, 'Helvetica', 10)`. -/
def calculated_width (sw : String → ℚ) (col : List String) : ℚ :=
  (col.map sw).foldr max 0 + 10

/-- The naive (uncapped) per-column widths of a grid. -/
def naive_widths (sw : String → ℚ) (raw_data : List (List String)) : List ℚ :=
  (zipCols raw_data).map (calculated_width sw)

/-- `col_widths` (src/email2printer.py, lines 151-162): each column's
naive width capped by `max_col_width` via `min`. -/
def col_widths (sw : String → ℚ) (raw_data : List (List String)) : List ℚ :=
  (zipCols raw_data).map fun col =>
    min (calculated_width sw col) (max_col_width raw_data)

/-- A concrete stand-in for the external `stringWidth` metric, used in
closed evaluations: 6 points per character (and hence width 0 for the
empty string, as the real metric gives). -/
def swRef (s : String) : ℚ := 6 * s.length

theorem zipColsAux_length_le (n : ℕ) : ∀ rows, (zipColsAux n rows).length ≤ n := by
  induction n with
  | zero => intro rows; simp [zipColsAux]
  | succ n ih =>
    intro rows
    unfold zipColsAux
    cases peelCols rows with
    | none => simp
    | some p => simpa using ih p.2

theorem zipCols_length_le (rows : List (List String)) :
    (zipCols rows).length ≤ num_cols rows := by
  cases rows with
  | nil => simp [zipCols, num_cols]
  | cons r rest => exact zipColsAux_length_le r.length (r :: rest)

/-- The appended `[0]` makes every naive width at least the padding 10. -/
theorem calculated_width_ge (sw : String → ℚ) (col : List String) :
    10 ≤ calculated_width sw col := by
  unfold calculated_width
  have h : (0 : ℚ) ≤ (col.map sw).foldr max 0 := by
    induction col.map sw with
    | nil => simp
    | cons x xs ih => simpa using Or.inr ih
  linarith

/-- C4: the sum of the computed column widths never exceeds the usable
page width, for every grid and every width metric — in particular even
when a single cell's natural text width alone exceeds the full page. -/
theorem C4_sum_within_page (sw : String → ℚ) (raw_data : List (List String)) :
    (col_widths sw raw_data).sum ≤ available_width := by
  by_cases hn : num_cols raw_data = 0
  · have hz : col_widths sw raw_data = [] := by
      have := zipCols_length_le raw_data
      rw [hn, Nat.le_zero, List.length_eq_zero] at this
      simp [col_widths, this]
    rw [hz]
    norm_num [List.sum_nil, available_width]
  · have hpos : 0 < (num_cols raw_data : ℚ) := by
      exact_mod_cast Nat.pos_of_ne_zero hn
    have hcap : max_col_width raw_data = available_width / num_cols raw_data := by
      unfold max_col_width
      rw [if_pos (Nat.pos_of_ne_zero hn)]
    have hle : ∀ w ∈ col_widths sw raw_data, w ≤ max_col_width raw_data := by
      intro w hw
      obtain ⟨col, _, rfl⟩ := List.mem_map.mp hw
      exact min_le_right _ _
    have h1 : (col_widths sw raw_data).sum
        ≤ (col_widths sw raw_data).length • max_col_width raw_data :=
      List.sum_le_card_nsmul _ _ hle
    have hlen : (col_widths sw raw_data).length ≤ num_cols raw_data := by
      have := zipCols_length_le raw_data
      simpa [col_widths] using this
    have hcapnn : 0 ≤ max_col_width raw_data := by
      rw [hcap]
      apply div_nonneg
      · norm_num [available_width]
      · exact Nat.cast_nonneg _
    have h2 : ((col_widths sw raw_data).length : ℚ) * max_col_width raw_data
        ≤ (num_cols raw_data : ℚ) * max_col_width raw_data := by
      apply mul_le_mul_of_nonneg_right _ hcapnn
      exact_mod_cast hlen
    have h3 : (num_cols raw_data : ℚ) * max_col_width raw_data = available_width := by
      rw [hcap, mul_comm]
      exact div_mul_cancel₀ _ (ne_of_gt hpos)
    calc (col_widths sw raw_data).sum
        ≤ (col_widths sw raw_data).length • max_col_width raw_data := h1
      _ = ((col_widths sw raw_data).length : ℚ) * max_col_width raw_data := by
          rw [nsmul_eq_mul]
      _ ≤ (num_cols raw_data : ℚ) * max_col_width raw_data := h2
      _ = available_width := h3

/-- A produced width implies the first row is non-empty. -/
theorem num_cols_pos_of_mem (sw : String → ℚ) (raw_data : List (List String))
    (w : ℚ) (hw : w ∈ col_widths sw raw_data) : 0 < num_cols raw_data := by
  rcases Nat.eq_zero_or_pos (num_cols raw_data) with h | h
  · exfalso
    have := zipCols_length_le raw_data
    rw [h, Nat.le_zero, List.length_eq_zero] at this
    simp [col_widths, this] at hw
  · exact h

/-- C5 (amended): every produced column width is at most the per-column
share `max_col_width`, and at least `min 10 max_col_width`; the claimed
lower bound of the full padding constant 10 holds whenever the column
count is at most 73 (so that the per-column share itself is at least
10), but not in general. -/
theorem C5_width_bounds (sw : String → ℚ) (raw_data : List (List String)) (w : ℚ)
    (hw : w ∈ col_widths sw raw_data) :
    min 10 (max_col_width raw_data) ≤ w
    ∧ w ≤ max_col_width raw_data
    ∧ (num_cols raw_data ≤ 73 → 10 ≤ w) := by
  obtain ⟨col, _, rfl⟩ := List.mem_map.mp hw
  have hcw := calculated_width_ge sw col
  refine ⟨min_le_min_right _ hcw, min_le_right _ _, fun h73 => ?_⟩
  have hpos := num_cols_pos_of_mem sw raw_data _ hw
  have hcap : max_col_width raw_data = available_width / num_cols raw_data := by
    unfold max_col_width
    rw [if_pos hpos]
  have hcap10 : (10 : ℚ) ≤ max_col_width raw_data := by
    rw [hcap]
    rw [le_div_iff₀ (by exact_mod_cast hpos)]
    have : (num_cols raw_data : ℚ) ≤ 73 := by exact_mod_cast h73
    unfold available_width
    linarith
  exact le_min hcw hcap10

/-- The grid of the C5 counterexample: a single row of 74 empty cells. -/
def gridC5 : List (List String) := [List.replicate 74 ""]

/-- The empty-cell column width: `stringWidth("") = 0`, plus padding. -/
theorem calculated_width_empty_cell : calculated_width swRef [""] = 10 := by
  unfold calculated_width swRef
  simp

/-- The per-column share of the C5 counterexample grid. -/
theorem max_col_width_gridC5 : max_col_width gridC5 = 366 / 37 := by
  have hn : num_cols gridC5 = 74 := by
    simp [num_cols, gridC5]
  unfold max_col_width
  rw [hn, if_pos (by norm_num)]
  norm_num [available_width]

/-- C5 counterexample: with 74 columns the per-column share 732/74 =
366/37 is below the padding constant 10, and the first produced width
equals that share, so the claimed lower bound of 10 fails. -/
theorem C5_counterexample :
    (col_widths swRef gridC5).head? = some (366 / 37)
    ∧ ((366 : ℚ) / 37) < 10
    ∧ ¬ (∀ w ∈ col_widths swRef gridC5, 10 ≤ w) := by
  have hhead : (col_widths swRef gridC5).head?
      = some (min (calculated_width swRef [""]) (max_col_width gridC5)) := rfl
  have hval : min (calculated_width swRef [""]) (max_col_width gridC5) = 366 / 37 := by
    rw [calculated_width_empty_cell, max_col_width_gridC5]
    rw [min_eq_right (by norm_num)]
  have hhead2 : (col_widths swRef gridC5).head? = some (366 / 37) := by
    rw [hhead, hval]
  refine ⟨hhead2, by norm_num, fun h => ?_⟩
  have hmem : ((366 : ℚ) / 37) ∈ col_widths swRef gridC5 :=
    List.mem_of_mem_head? (Option.mem_def.mpr hhead2)
  have := h _ hmem
  norm_num at this

/-- The single column width of the one-cell grid `[["ab"]]`. -/
theorem col_widths_ab : col_widths swRef [["ab"]] = [22] := by
  have h : col_widths swRef [["ab"]]
      = [min (calculated_width swRef ["ab"]) (max_col_width [["ab"]])] := rfl
  have hcalc : calculated_width swRef ["ab"] = 22 := by
    unfold calculated_width swRef
    have : ("ab".length : ℚ) = 2 := by
      rw [show "ab".length = 2 from rfl]
      norm_num
    simp [this]
    norm_num [max_eq_left]
  have hcap : max_col_width [["ab"]] = 732 := by
    unfold max_col_width
    rw [show num_cols [["ab"]] = 1 from rfl, if_pos (by norm_num)]
    norm_num [available_width]
  rw [h, hcalc, hcap, min_eq_left (by norm_num)]

/-- Witness for C5 (amended) at a concrete one-cell grid. -/
theorem C5_width_bounds_witness :
    min 10 (max_col_width [["ab"]]) ≤ 22
    ∧ (22 : ℚ) ≤ max_col_width [["ab"]]
    ∧ (num_cols [["ab"]] ≤ 73 → (10 : ℚ) ≤ 22) :=
  C5_width_bounds swRef [["ab"]] 22 (by rw [col_widths_ab]; exact List.mem_singleton.mpr rfl)

theorem map_min_const_of_le (c : ℚ) :
    ∀ l : List ℚ, (∀ w ∈ l, w ≤ c) → (l.map fun w => min w c) = l := by
  intro l h
  induction l with
  | nil => rfl
  | cons x xs ih =>
    rw [List.map_cons, min_eq_left (h x (List.mem_cons_self x xs)),
      ih fun w hw => h w (List.mem_cons_of_mem x hw)]

/-- C3 (amended): each column's width is unconditionally the minimum of
its naive computed width and the per-column share `max_col_width`; in
particular every column keeps its naive width exactly when every naive
width is at most the per-column share — not merely when the naive total
fits within the usable width. -/
theorem C3_cap_unconditional (sw : String → ℚ) (raw_data : List (List String)) :
    col_widths sw raw_data
      = (naive_widths sw raw_data).map (fun w => min w (max_col_width raw_data))
    ∧ ((∀ w ∈ naive_widths sw raw_data, w ≤ max_col_width raw_data) →
        col_widths sw raw_data = naive_widths sw raw_data) := by
  have h1 : col_widths sw raw_data
      = (naive_widths sw raw_data).map (fun w => min w (max_col_width raw_data)) := by
    unfold col_widths naive_widths
    rw [List.map_map]
    rfl
  refine ⟨h1, fun h => ?_⟩
  rw [h1, map_min_const_of_le _ _ h]

/-- The grid of the C3 counterexample: one wide cell and one empty cell
in a single row. -/
def gridC3 : List (List String) := [[String.mk (List.replicate 66 'a'), ""]]

/-- The wide cell of the C3 counterexample grid. -/
def wideCell : String := String.mk (List.replicate 66 'a')

/-- The naive width of the wide-cell column. -/
theorem calculated_width_wideCell : calculated_width swRef [wideCell] = 406 := by
  unfold calculated_width swRef
  have hl : (wideCell.length : ℚ) = 66 := by
    rw [show wideCell.length = 66 from rfl]
    norm_num
  simp [hl]
  norm_num [max_eq_left]

/-- The per-column share of the C3 counterexample grid. -/
theorem max_col_width_gridC3 : max_col_width gridC3 = 366 := by
  unfold max_col_width
  rw [show num_cols gridC3 = 2 from rfl, if_pos (by norm_num)]
  norm_num [available_width]

/-- C3 counterexample: in `gridC3` the naive widths are 406 and 10, so
the naive total 416 fits well within the usable width 732, yet the
first column is still capped to the per-column share 366 instead of
keeping its naive width 406. -/
theorem C3_counterexample :
    (naive_widths swRef gridC3).sum ≤ available_width
    ∧ naive_widths swRef gridC3 = [406, 10]
    ∧ col_widths swRef gridC3 = [366, 10]
    ∧ col_widths swRef gridC3 ≠ naive_widths swRef gridC3 := by
  have hnaive : naive_widths swRef gridC3
      = [calculated_width swRef [wideCell], calculated_width swRef [""]] := rfl
  have hcw : col_widths swRef gridC3
      = [min (calculated_width swRef [wideCell]) (max_col_width gridC3),
         min (calculated_width swRef [""]) (max_col_width gridC3)] := rfl
  rw [hnaive, hcw, calculated_width_wideCell, calculated_width_empty_cell,
    max_col_width_gridC3, min_eq_right (by norm_num), min_eq_left (by norm_num)]
  refine ⟨by norm_num [available_width], rfl, rfl, by simp⟩

/-- Every naive width of the one-cell grid is within its per-column
share. -/
theorem naive_widths_ab_le :
    ∀ w ∈ naive_widths swRef [["ab"]], w ≤ max_col_width [["ab"]] := by
  intro w hw
  have h : naive_widths swRef [["ab"]] = [calculated_width swRef ["ab"]] := rfl
  rw [h] at hw
  have hcalc : calculated_width swRef ["ab"] = 22 := by
    unfold calculated_width swRef
    have : ("ab".length : ℚ) = 2 := by
      rw [show "ab".length = 2 from rfl]
      norm_num
    simp [this]
    norm_num [max_eq_left]
  have hcap : max_col_width [["ab"]] = 732 := by
    unfold max_col_width
    rw [show num_cols [["ab"]] = 1 from rfl, if_pos (by norm_num)]
    norm_num [available_width]
  rw [List.mem_singleton.mp hw, hcalc, hcap]
  norm_num

/-- Witness for C3 (amended) at a concrete grid where every naive width
is within the per-column share, so the plan keeps the naive widths. -/
theorem C3_cap_unconditional_witness :
    col_widths swRef [["ab"]]
      = (naive_widths swRef [["ab"]]).map (fun w => min w (max_col_width [["ab"]]))
    ∧ col_widths swRef [["ab"]] = naive_widths swRef [["ab"]] :=
  ⟨(C3_cap_unconditional swRef [["ab"]]).1,
   (C3_cap_unconditional swRef [["ab"]]).2 naive_widths_ab_le⟩

/-- C10: on a grid with zero rows, and on a grid whose first row has
zero cells, the width computation is total: the `num_cols > 0` guard
falls back to the constant cap 100 (no division is performed) and the
resulting column width plan is the empty sequence. -/
theorem C10_empty_grid_total (sw : String → ℚ) :
    col_widths sw [] = [] ∧ max_col_width [] = 100
    ∧ ∀ rest : List (List String),
        col_widths sw ([] :: rest) = [] ∧ max_col_width ([] :: rest) = 100 := by
  refine ⟨rfl, ?_, fun rest => ⟨rfl, ?_⟩⟩
  · simp [max_col_width, num_cols]
  · simp [max_col_width, num_cols]

/-- A flowable appended to `elements` (src/email2printer.py, lines
163-174): either one rendered table (a page-group) or an explicit page
break. -/
inductive PdfElem where
  | table (grid : List (List String))
  | pageBreak
  deriving DecidableEq

/-- Recognizes a page break element. -/
def isBreakB : PdfElem → Bool
  | PdfElem.pageBreak => true
  | _ => false

/-- Recognizes a table element. -/
def isTableB : PdfElem → Bool
  | PdfElem.table _ => true
  | _ => false

/-- The `elements` accumulation loop of `convert_multiple_excels_to_pdf`
(src/email2printer.py, lines 132-174): for each grid at enumerate index
`idx`, append the table and then a page break if
`idx < len(excel_data_list) - 1`. -/
def build_elements (total : ℕ) : List (List (List String)) → ℕ → List PdfElem
  | [], _ => []
  | g :: gs, idx =>
      PdfElem.table g ::
        ((if idx < total - 1 then [PdfElem.pageBreak] else [])
          ++ build_elements total gs (idx + 1))

/-- The full element list the script hands to `doc.build`. -/
def assemble_document (gs : List (List (List String))) : List PdfElem :=
  build_elements gs.length gs 0

theorem build_elements_eq : ∀ (gs : List (List (List String))) (idx total : ℕ),
    total = idx + gs.length →
    build_elements total gs idx
      = List.intersperse PdfElem.pageBreak (gs.map PdfElem.table) := by
  intro gs
  induction gs with
  | nil => intro idx total h; rfl
  | cons g gs ih =>
    intro idx total h
    cases gs with
    | nil =>
      unfold build_elements
      rw [if_neg (by simp at h; omega)]
      simp [build_elements, List.intersperse_singleton]
    | cons g2 gs2 =>
      unfold build_elements
      rw [if_pos (by simp at h; omega)]
      rw [List.map_cons, List.map_cons, List.intersperse_cons_cons]
      rw [← List.map_cons, ih (idx + 1) total (by simp at h ⊢; omega)]
      rfl

theorem inter_break_count : ∀ (gs : List (List (List String))) (g : List (List String)),
    (List.intersperse PdfElem.pageBreak ((g :: gs).map PdfElem.table)).countP isBreakB
      = gs.length := by
  intro gs
  induction gs with
  | nil => intro g; simp [List.intersperse_singleton, List.countP_cons, isBreakB]
  | cons g2 gs ih =>
    intro g
    rw [List.map_cons, List.map_cons, List.intersperse_cons_cons,
      List.countP_cons, List.countP_cons, ← List.map_cons, ih g2]
    simp [isBreakB]

theorem inter_table_count : ∀ (gs : List (List (List String))) (g : List (List String)),
    (List.intersperse PdfElem.pageBreak ((g :: gs).map PdfElem.table)).countP isTableB
      = gs.length + 1 := by
  intro gs
  induction gs with
  | nil => intro g; simp [List.intersperse_singleton, List.countP_cons, isTableB]
  | cons g2 gs ih =>
    intro g
    rw [List.map_cons, List.map_cons, List.intersperse_cons_cons,
      List.countP_cons, List.countP_cons, ← List.map_cons, ih g2]
    simp [isTableB]

theorem inter_getLast : ∀ (gs : List (List (List String))) (g : List (List String)),
    (List.intersperse PdfElem.pageBreak ((g :: gs).map PdfElem.table)).getLast?
      = some (PdfElem.table (gs.getLastD g)) := by
  intro gs
  induction gs with
  | nil => intro g; simp [List.intersperse_singleton]
  | cons g2 gs ih =>
    intro g
    rw [List.map_cons, List.map_cons, List.intersperse_cons_cons,
      List.getLast?_cons_cons]
    cases gs with
    | nil =>
      simp [List.intersperse_singleton, List.getLast?_cons_cons]
    | cons g3 gs3 =>
      rw [List.map_cons, List.intersperse_cons_cons, List.getLast?_cons_cons]
      have h := ih g2
      rw [List.map_cons, List.map_cons, List.intersperse_cons_cons] at h
      rw [h]
      conv_rhs => rw [List.getLastD_cons]

/-- C6: for every input sequence the assembled element list is the
tables in order with exactly one page break between each pair of
consecutive tables (an intersperse); hence for `n ≥ 1` tables it holds
exactly `n` tables and `n - 1` page breaks, and the last element is the
last table — no trailing page break. -/
theorem C6_page_break_layout (gs : List (List (List String))) :
    assemble_document gs = List.intersperse PdfElem.pageBreak (gs.map PdfElem.table)
    ∧ (gs ≠ [] → (assemble_document gs).countP isBreakB = gs.length - 1)
    ∧ (gs ≠ [] → (assemble_document gs).countP isTableB = gs.length)
    ∧ (∀ g rest, gs = g :: rest →
        (assemble_document gs).getLast? = some (PdfElem.table (rest.getLastD g))) := by
  have h0 : assemble_document gs
      = List.intersperse PdfElem.pageBreak (gs.map PdfElem.table) :=
    build_elements_eq gs 0 gs.length (by simp)
  refine ⟨h0, fun hne => ?_, fun hne => ?_, fun g rest hgr => ?_⟩
  · obtain ⟨g, rest, rfl⟩ := List.exists_cons_of_ne_nil hne
    rw [h0, inter_break_count]
    simp
  · obtain ⟨g, rest, rfl⟩ := List.exists_cons_of_ne_nil hne
    rw [h0, inter_table_count]
    simp
  · subst hgr
    rw [h0, inter_getLast]

/-- Witness for C6 at a concrete two-table input: two page-groups, one
page break, last element a table. -/
theorem C6_page_break_layout_witness :
    (assemble_document [gridC3, gridC5]).countP isBreakB = [gridC3, gridC5].length - 1
    ∧ (assemble_document [gridC3, gridC5]).countP isTableB = [gridC3, gridC5].length
    ∧ (assemble_document [gridC3, gridC5]).getLast?
        = some (PdfElem.table ([gridC5].getLastD gridC3)) :=
  ⟨(C6_page_break_layout [gridC3, gridC5]).2.1 (by simp),
   (C6_page_break_layout [gridC3, gridC5]).2.2.1 (by simp),
   (C6_page_break_layout [gridC3, gridC5]).2.2.2 gridC3 [gridC5] rfl⟩

end EmailsToPrinter
